import Mathlib

/-!
A verification model of the `pdf2qa` pipeline.

This file gives a shallow embedding, in Lean, of the parts of the `pdf2qa`
Python code base that its specification talks about:

* the character-window chunker `LlamaParser._chunk_text`
  (`pdf2qa/parser/llama_parser.py`);
* the cost ledger `CostTracker` (`pdf2qa/utils/cost_tracker.py`) and the
  job-cost report `ProcessingSummary.finalize`
  (`pdf2qa/utils/summary_generator.py`);
* the statement extractor `LlamaExtractor`
  (`pdf2qa/extractor/llama_extractor.py`);
* the question/answer generator `QAGenerator`
  (`pdf2qa/qa_generator/qa_generator.py`);
* the orchestration in `Pipeline.run` and `Pipeline._get_output_path`
  (`pdf2qa/pipeline.py`).

Python strings are modelled as `List Char`, Python ints as `Nat`/`Int`,
dollar amounts (Python floats holding exact decimal fractions) as `ℚ`,
fallible or possibly diverging loops by explicit fuel, and the outcomes of
network calls (LlamaParse, OpenAI) as oracle parameters.  Theorems about the
model follow the definitions.
-/

namespace Pdf2qa

/-- The characters removed by Python `str.strip()` (ASCII whitespace). -/
def isPySpace (c : Char) : Bool :=
  c == ' ' || c == '\t' || c == '\n' || c == '\r' || c == '\x0b' || c == '\x0c'

/-- Python `s.strip()` on a string modelled as a character list: drop
whitespace from both ends. -/
def pyStrip (s : List Char) : List Char :=
  ((s.dropWhile isPySpace).reverse.dropWhile isPySpace).reverse

/-- Python `s.strip()` on a Lean `String`. -/
def pyStripStr (s : String) : String :=
  String.mk (pyStrip s.data)

/-- The `text[i] in '.!?'` test of `LlamaParser._chunk_text`
(llama_parser.py line 86). -/
def isSentenceEndChar (c : Char) : Bool :=
  c == '.' || c == '!' || c == '?'

/-- The `text[end] not in ' \t\n'` test of `LlamaParser._chunk_text`
(llama_parser.py line 95), i.e. the characters accepted as word boundaries. -/
def isWordBreakChar (c : Char) : Bool :=
  c == ' ' || c == '\t' || c == '\n'

/-- The backward scan `for i in range(end - 1, search_start - 1, -1)` of
`_chunk_text` (llama_parser.py lines 85-88): the greatest index `i` with
`searchStart ≤ i < e` whose character is a sentence terminator gives
`sentence_end = i + 1`; `none` plays the role of `sentence_end = -1`. -/
def findSentenceEnd (text : List Char) (searchStart e : Nat) : Option Nat :=
  ((List.range' searchStart (e - searchStart)).reverse.find?
      (fun i => isSentenceEndChar (text.getD i ' '))).map (· + 1)

/-- The backward word-boundary scan `while end > start and text[end] not in
' \t\n': end -= 1` of `_chunk_text` (llama_parser.py lines 95-96), started at
`e`: the greatest index in `(start, e]` holding a word-break character, or
`start` when there is none. -/
def findWordBoundary (text : List Char) (start e : Nat) : Nat :=
  ((List.range' (start + 1) (e - start)).reverse.find?
      (fun i => isWordBreakChar (text.getD i ' '))).getD start

/-- The word-boundary cut of `_chunk_text` (llama_parser.py lines 94-98):
walk `end` back to a word boundary, and if none is found above `start`,
fall back to the raw cut `start + chunk_size`. -/
def wordCut (text : List Char) (start chunkSize : Nat) : Nat :=
  let wb := findWordBoundary text start (start + chunkSize)
  if wb = start then start + chunkSize else wb

/-- The adjusted cut point `end` of one `_chunk_text` iteration
(llama_parser.py lines 77-98): the raw window end `start + chunk_size`,
improved to a sentence cut or a word-boundary cut when the window does not
reach the end of the text. -/
def cutEnd (text : List Char) (chunkSize start : Nat) : Nat :=
  if start + chunkSize < text.length then
    match findSentenceEnd text (max (start + chunkSize - 100) start) (start + chunkSize) with
    | some se => if start < se then se else wordCut text start chunkSize
    | none => wordCut text start chunkSize
  else start + chunkSize

/-- One iteration of the `while start < len(text)` loop of
`LlamaParser._chunk_text` (llama_parser.py lines 76-107), at loop variable
`start`: returns the chunk this iteration appends (`none` when the stripped
piece is empty, mirroring `if chunk:`) together with the next value of
`start`.  The next `start` is `end - chunk_overlap`, replaced by `end`
whenever `end - chunk_overlap <= 0` (lines 105-107); on naturals the
truncated subtraction being `0` is exactly that Python condition. -/
def chunkStep (text : List Char) (chunkSize chunkOverlap start : Nat) :
    Option (List Char) × Nat :=
  let end1 := cutEnd text chunkSize start
  let piece := pyStrip ((text.drop start).take (end1 - start))
  let s := end1 - chunkOverlap
  ((if piece = [] then none else some piece), if s = 0 then end1 else s)

/-- The `while start < len(text)` loop of `_chunk_text` with explicit fuel:
`none` means the fuel ran out with `start` still inside the text, i.e. the
Python loop has performed that many iterations without terminating. -/
def chunkLoop (text : List Char) (chunkSize chunkOverlap : Nat) :
    Nat → Nat → List (List Char) → Option (List (List Char))
  | fuel, start, acc =>
    if start < text.length then
      match fuel with
      | 0 => none
      | fuel' + 1 =>
        let st := chunkStep text chunkSize chunkOverlap start
        chunkLoop text chunkSize chunkOverlap fuel' st.2 (acc ++ st.1.toList)
    else some acc

/-- `LlamaParser._chunk_text` (llama_parser.py lines 58-109) with explicit
fuel for the chunking loop: texts no longer than `chunk_size` are returned
whole (lines 70-71), otherwise the loop runs from `start = 0`. -/
def chunk_text (text : List Char) (chunkSize chunkOverlap fuel : Nat) :
    Option (List (List Char)) :=
  if text.length ≤ chunkSize then some [text]
  else chunkLoop text chunkSize chunkOverlap fuel 0 []

/-- A 30-character text with no whitespace and no sentence terminator. -/
def aText : List Char := List.replicate 30 'a'

lemma chunkStep_aText_zero :
    chunkStep aText 10 10 0 = (some (List.replicate 10 'a'), 10) := by decide

lemma chunkStep_aText_ten :
    chunkStep aText 10 10 10 = (some (List.replicate 10 'a'), 10) := by decide

lemma chunkLoop_aText_fixed (fuel : Nat) :
    ∀ acc, chunkLoop aText 10 10 fuel 10 acc = none := by
  induction fuel with
  | zero => intro acc; simp [chunkLoop, aText]
  | succ n ih =>
    intro acc
    rw [chunkLoop, if_pos (by decide : 10 < aText.length)]
    show chunkLoop aText 10 10 n (chunkStep aText 10 10 10).2
      (acc ++ (chunkStep aText 10 10 10).1.toList) = none
    rw [chunkStep_aText_ten]
    exact ih _

/-- C2: refuted — the claim asserts that `LlamaParser._chunk_text` terminates
for every text, every `chunk_size >= 1` and every `chunk_overlap >= 0`.  On
the 30-character text `"a" * 30` with `chunk_size = 10` and
`chunk_overlap = 10`, the loop reaches `start = 10`, where `end = 20` and the
advance `start = end - overlap = 10` makes no progress while the guard
`end - overlap <= 0` does not fire; the loop therefore never terminates: for
every iteration budget `fuel`, the fuelled loop is still running. -/
theorem c2_chunk_text_divergence (fuel : Nat) :
    chunk_text aText 10 10 fuel = none := by
  cases fuel with
  | zero => simp [chunk_text, chunkLoop, aText]
  | succ n =>
    rw [chunk_text, if_neg (by decide : ¬aText.length ≤ 10),
      chunkLoop, if_pos (by decide : 0 < aText.length)]
    show chunkLoop aText 10 10 n (chunkStep aText 10 10 0).2
      ([] ++ (chunkStep aText 10 10 0).1.toList) = none
    rw [chunkStep_aText_zero]
    exact chunkLoop_aText_fixed n _

/-- Evaluation of the diverging input at the concrete fuel 1000: after 1000
iterations the loop of `_chunk_text` has still not terminated. -/
theorem c2_chunk_text_divergence_witness :
    chunk_text aText 10 10 1000 = none :=
  c2_chunk_text_divergence 1000

lemma pyStrip_length_le (s : List Char) : (pyStrip s).length ≤ s.length := by
  unfold pyStrip
  calc ((s.dropWhile isPySpace).reverse.dropWhile isPySpace).reverse.length
      = ((s.dropWhile isPySpace).reverse.dropWhile isPySpace).length := by
        rw [List.length_reverse]
    _ ≤ (s.dropWhile isPySpace).reverse.length :=
        (List.dropWhile_sublist _).length_le
    _ = (s.dropWhile isPySpace).length := by rw [List.length_reverse]
    _ ≤ s.length := (List.dropWhile_sublist _).length_le

lemma findSentenceEnd_le (text : List Char) (searchStart e se : Nat)
    (h : findSentenceEnd text searchStart e = some se) : se ≤ e := by
  unfold findSentenceEnd at h
  rw [Option.map_eq_some'] at h
  obtain ⟨i, hi, rfl⟩ := h
  have hmem := List.mem_of_find?_eq_some hi
  rw [List.mem_reverse, List.mem_range'] at hmem
  omega

lemma findWordBoundary_le (text : List Char) (start e : Nat) (hse : start ≤ e) :
    findWordBoundary text start e ≤ e := by
  unfold findWordBoundary
  cases hf : (List.range' (start + 1) (e - start)).reverse.find?
      (fun i => isWordBreakChar (text.getD i ' ')) with
  | none => simpa using hse
  | some i =>
    have hmem := List.mem_of_find?_eq_some hf
    rw [List.mem_reverse, List.mem_range'] at hmem
    simp only [Option.getD_some]
    omega

lemma wordCut_le (text : List Char) (start chunkSize : Nat) :
    wordCut text start chunkSize ≤ start + chunkSize := by
  have h := findWordBoundary_le text start (start + chunkSize) (Nat.le_add_right _ _)
  show (if findWordBoundary text start (start + chunkSize) = start
      then start + chunkSize else findWordBoundary text start (start + chunkSize))
      ≤ start + chunkSize
  split <;> omega

lemma cutEnd_le (text : List Char) (chunkSize start : Nat) :
    cutEnd text chunkSize start ≤ start + chunkSize := by
  unfold cutEnd
  split
  · cases hse : findSentenceEnd text (max (start + chunkSize - 100) start)
        (start + chunkSize) with
    | none => exact wordCut_le text start chunkSize
    | some se =>
      have := findSentenceEnd_le text _ _ _ hse
      have hw := wordCut_le text start chunkSize
      simp only []
      split <;> omega
  · omega

lemma chunkStep_piece_length (text : List Char) (chunkSize chunkOverlap start : Nat)
    (p : List Char) (hp : (chunkStep text chunkSize chunkOverlap start).1 = some p) :
    p.length ≤ chunkSize := by
  have hend := cutEnd_le text chunkSize start
  simp only [chunkStep] at hp
  by_cases hq : pyStrip ((text.drop start).take (cutEnd text chunkSize start - start)) = []
  · rw [if_pos hq] at hp
    exact Option.noConfusion hp
  · rw [if_neg hq] at hp
    injection hp with hp
    subst hp
    calc (pyStrip ((text.drop start).take (cutEnd text chunkSize start - start))).length
        ≤ ((text.drop start).take (cutEnd text chunkSize start - start)).length :=
          pyStrip_length_le _
      _ ≤ cutEnd text chunkSize start - start := List.length_take_le _ _
      _ ≤ chunkSize := by omega

lemma chunkLoop_length_le (text : List Char) (chunkSize chunkOverlap : Nat) :
    ∀ (fuel start : Nat) (acc cs : List (List Char)),
      (∀ c ∈ acc, c.length ≤ chunkSize) →
      chunkLoop text chunkSize chunkOverlap fuel start acc = some cs →
      ∀ c ∈ cs, c.length ≤ chunkSize := by
  intro fuel
  induction fuel with
  | zero =>
    intro start acc cs hacc h
    rw [chunkLoop] at h
    split at h
    · exact Option.noConfusion h
    · injection h with h; subst h; exact hacc
  | succ n ih =>
    intro start acc cs hacc h
    rw [chunkLoop] at h
    split at h
    · refine ih _ _ _ ?_ h
      intro c hc
      rcases List.mem_append.mp hc with h1 | h2
      · exact hacc c h1
      · cases hst : (chunkStep text chunkSize chunkOverlap start).1 with
        | none => rw [hst] at h2; simp at h2
        | some p =>
          rw [hst] at h2
          simp at h2
          subst h2
          exact chunkStep_piece_length _ _ _ _ _ hst
    · injection h with h; subst h; exact hacc

/-- C7: whenever `LlamaParser._chunk_text` terminates (its loop finishes
within some iteration budget `fuel`), with `chunk_size >= 1` and
`0 <= chunk_overlap < chunk_size`, every returned segment has length at most
`chunk_size`: each cut point lies in the window `[start, start + chunk_size]`
and stripping only shortens the piece. -/
theorem c7_chunk_length_bound (text : List Char) (chunkSize chunkOverlap fuel : Nat)
    (cs : List (List Char)) (hsize : 1 ≤ chunkSize) (hov : chunkOverlap < chunkSize)
    (h : chunk_text text chunkSize chunkOverlap fuel = some cs) :
    ∀ c ∈ cs, c.length ≤ chunkSize := by
  unfold chunk_text at h
  split at h
  · injection h with h
    subst h
    intro c hc
    simp only [List.mem_singleton] at hc
    subst hc
    assumption
  · exact chunkLoop_length_le text _ _ fuel 0 [] cs (by simp) h

/-- The word-boundary example text used to witness C7. -/
def wText : List Char :=
  "hello world this is a test of the word boundary cutting rule ok".data

/-- Concrete run witnessing C7: chunking a 64-character text with
`chunk_size = 20`, `chunk_overlap = 5` terminates in the five chunks below,
and each has length at most 20. -/
theorem c7_chunk_length_bound_witness :
    ("hello world this is".data).length ≤ 20
    ∧ ("is is a test of the".data).length ≤ 20
    ∧ ("f the word boundary".data).length ≤ 20
    ∧ ("ndary cutting rule".data).length ≤ 20
    ∧ ("rule ok".data).length ≤ 20 := by
  have h := c7_chunk_length_bound wText 20 5 100
    ["hello world this is".data, "is is a test of the".data,
      "f the word boundary".data, "ndary cutting rule".data, "rule ok".data]
    (by decide) (by decide) (by decide)
  exact ⟨h _ (by simp), h _ (by simp), h _ (by simp), h _ (by simp),
    h _ (by simp)⟩

/-! ## `Pipeline._get_output_path` (pipeline.py lines 221-248) -/

/-- A filesystem path as `pathlib.Path` decomposes it for `_get_output_path`:
the parent directory and the final component (`original_path.parent` and
`original_path.name`). -/
structure PyPath where
  dir : List Char
  name : List Char
deriving DecidableEq, Repr

/-- `Pipeline._get_output_path(original_path, job_id)` (pipeline.py lines
221-248): split the filename on `'.'`; with an extension present the result
is `f"{name}_{job_id}.{extension}"`, otherwise `f"{filename}_{job_id}"`; the
directory is kept. -/
def getOutputPath (p : PyPath) (jobId : List Char) : PyPath :=
  let nameParts := p.name.splitOn '.'
  if 1 < nameParts.length then
    { dir := p.dir,
      name := List.intercalate ['.'] nameParts.dropLast
        ++ '_' :: jobId ++ '.' :: nameParts.getLastD [] }
  else
    { dir := p.dir, name := p.name ++ '_' :: jobId }

/-- C4: refuted in its idempotence part — re-deriving the output path of
`output/content.json` for job id `job` a second time yields
`output/content_job_job.json`, not `output/content_job.json` again:
`_get_output_path` is not idempotent under re-derivation. -/
theorem c4_get_output_path_not_idempotent :
    getOutputPath (getOutputPath ⟨"output".data, "content.json".data⟩ "job".data)
        "job".data
      ≠ getOutputPath ⟨"output".data, "content.json".data⟩ "job".data := by decide

/-- C4 (amended): `Pipeline._get_output_path` is deterministic (it is a pure
function of the path and job id) and injective in the job id for a fixed base
path; it is not idempotent — applying it to its own result appends
`_<job_id>` a second time. -/
theorem c4_get_output_path_injective (p : PyPath) (j1 j2 : List Char)
    (h : getOutputPath p j1 = getOutputPath p j2) : j1 = j2 := by
  unfold getOutputPath at h
  by_cases hl : 1 < (p.name.splitOn '.').length
  · rw [if_pos hl, if_pos hl, PyPath.mk.injEq] at h
    obtain ⟨-, h2⟩ := h
    have h3 := List.append_cancel_right h2
    rw [List.append_right_inj] at h3
    injection h3
  · rw [if_neg hl, if_neg hl, PyPath.mk.injEq] at h
    obtain ⟨-, h2⟩ := h
    rw [List.append_right_inj] at h2
    injection h2

/-- Concrete application of the C4 injectivity theorem at the base path
`output/content.json` and equal derivations for the job id `alpha`. -/
theorem c4_get_output_path_injective_witness : "alpha".data = "alpha".data :=
  c4_get_output_path_injective ⟨"output".data, "content.json".data⟩
    "alpha".data "alpha".data rfl

/-! ## `CostTracker` (cost_tracker.py) -/

/-- A ledger entry (the `APICall` dataclass, cost_tracker.py lines 16-28).
Dollar amounts are exact rationals; the wall-clock `timestamp` and the
free-form `metadata` dictionary carry no information any claim depends on
and are omitted. -/
structure APICall where
  service : String
  operation : String
  model : Option String
  input_tokens : Nat
  output_tokens : Nat
  total_tokens : Nat
  cost_usd : ℚ
  job_id : Option String
deriving DecidableEq, Repr

/-- `CostTracker.OPENAI_PRICING` (cost_tracker.py lines 35-41): dollars per
1M tokens, `(input, output)`. -/
def OPENAI_PRICING (model : String) : Option (ℚ × ℚ) :=
  if model = "gpt-3.5-turbo" then some (1/2, 3/2)
  else if model = "gpt-4o-mini" then some (3/20, 3/5)
  else if model = "gpt-4o" then some (5/2, 10)
  else if model = "gpt-4" then some (30, 60)
  else if model = "gpt-4-turbo" then some (10, 30)
  else none

/-- `CostTracker.calculate_openai_cost` (cost_tracker.py lines 79-88): an
unknown model falls back to the `gpt-3.5-turbo` pricing `(1/2, 3/2)`. -/
def calculate_openai_cost (model : String) (inputTokens outputTokens : Nat) : ℚ :=
  let pricing := (OPENAI_PRICING model).getD (1/2, 3/2)
  (inputTokens : ℚ) / 1000000 * pricing.1 + (outputTokens : ℚ) / 1000000 * pricing.2

/-- `CostTracker.calculate_llamaparse_cost` (cost_tracker.py lines 90-92):
$0.003 per page. -/
def calculate_llamaparse_cost (pages : Nat) : ℚ :=
  (pages : ℚ) * (3 / 1000)

/-- `CostTracker.track_openai_call` (cost_tracker.py lines 94-116): build
the entry, append it to `calls`, and return the cost. -/
def track_openai_call (calls : List APICall) (model : String)
    (inputTokens outputTokens : Nat) (operation : String) (jobId : Option String) :
    List APICall × ℚ :=
  let cost := calculate_openai_cost model inputTokens outputTokens
  let call : APICall :=
    { service := "openai", operation := operation, model := some model,
      input_tokens := inputTokens, output_tokens := outputTokens,
      total_tokens := inputTokens + outputTokens, cost_usd := cost,
      job_id := jobId }
  (calls ++ [call], cost)

/-- `CostTracker.track_llamaparse_call` (cost_tracker.py lines 118-138):
the page count is stored in `input_tokens`. -/
def track_llamaparse_call (calls : List APICall) (pages : Nat)
    (jobId : Option String) : List APICall × ℚ :=
  let cost := calculate_llamaparse_cost pages
  let call : APICall :=
    { service := "llamaparse", operation := "parse", model := none,
      input_tokens := pages, output_tokens := 0, total_tokens := pages,
      cost_usd := cost, job_id := jobId }
  (calls ++ [call], cost)

/-- One invocation of a `CostTracker.track_*` method. -/
inductive TrackEvent where
  | openaiCall (model : String) (inputTokens outputTokens : Nat)
      (operation : String) (jobId : Option String)
  | llamaparseCall (pages : Nat) (jobId : Option String)
deriving DecidableEq, Repr

/-- Apply one track invocation to the ledger, returning the new ledger and
the cost the call returns. -/
def applyEvent (calls : List APICall) : TrackEvent → List APICall × ℚ
  | .openaiCall m i o op j => track_openai_call calls m i o op j
  | .llamaparseCall p j => track_llamaparse_call calls p j

/-- The ledger reached from an empty `calls` list by a sequence of track
invocations. -/
def runEvents (events : List TrackEvent) : List APICall :=
  events.foldl (fun calls e => (applyEvent calls e).1) []

/-- The cost returned by one track invocation (it does not depend on the
ledger contents). -/
def eventCost (e : TrackEvent) : ℚ :=
  (applyEvent [] e).2

/-- The single ledger entry appended by one track invocation. -/
def eventEntry (e : TrackEvent) : APICall :=
  ((applyEvent [] e).1.getLastD
    { service := "", operation := "", model := none, input_tokens := 0,
      output_tokens := 0, total_tokens := 0, cost_usd := 0, job_id := none })

/-- One value of the `by_service` / `by_model` / `by_job` dictionaries built
by `CostTracker.get_summary`; `tokens` is accumulated only for `by_model`
(the Python `by_service` and `by_job` dictionaries have no `tokens` key, and
it stays 0 for them here). -/
structure Bucket where
  cost : ℚ
  calls : Nat
  tokens : Nat
deriving DecidableEq, Repr

/-- `summary[part][key]["cost"] += ...` on an insertion-ordered dictionary
modelled as an association list: update the existing entry in place or
append a fresh one (cost_tracker.py lines 155-173). -/
def addBucket (m : List (String × Bucket)) (key : String) (cost : ℚ)
    (tokens : Nat) : List (String × Bucket) :=
  match m with
  | [] => [(key, ⟨cost, 1, tokens⟩)]
  | (k, b) :: rest =>
    if k = key then (k, ⟨b.cost + cost, b.calls + 1, b.tokens + tokens⟩) :: rest
    else (k, b) :: addBucket rest key cost tokens

/-- The dictionary returned by `CostTracker.get_summary`
(cost_tracker.py lines 142-148). -/
structure Summary where
  total_cost : ℚ
  total_calls : Nat
  by_service : List (String × Bucket)
  by_model : List (String × Bucket)
  by_job : List (String × Bucket)
deriving DecidableEq, Repr

/-- `model_key = call.model or f"{call.service}_default"` (cost_tracker.py
line 161): Python `or` takes the fallback when the model is `None` or the
empty string. -/
def modelKey (call : APICall) : String :=
  match call.model with
  | some m => if m = "" then call.service ++ "_default" else m
  | none => call.service ++ "_default"

/-- The body of the `for call in self.calls` loop of `get_summary`
(cost_tracker.py lines 150-173); `if call.job_id:` is Python truthiness, so
entries with `job_id` equal to `None` or `""` are not entered into
`by_job`. -/
def summaryStep (s : Summary) (call : APICall) : Summary :=
  { total_cost := s.total_cost + call.cost_usd,
    total_calls := s.total_calls,
    by_service := addBucket s.by_service call.service call.cost_usd 0,
    by_model := addBucket s.by_model (modelKey call) call.cost_usd call.total_tokens,
    by_job :=
      match call.job_id with
      | some j => if j = "" then s.by_job else addBucket s.by_job j call.cost_usd 0
      | none => s.by_job }

/-- `CostTracker.get_summary` (cost_tracker.py lines 140-175). -/
def get_summary (calls : List APICall) : Summary :=
  calls.foldl summaryStep
    { total_cost := 0, total_calls := calls.length,
      by_service := [], by_model := [], by_job := [] }

/-- The sum of the `cost` fields over one summary partition. -/
def bucketCosts (m : List (String × Bucket)) : ℚ :=
  (m.map (fun kb => kb.2.cost)).sum

/-- The sum of `cost_usd` over a list of ledger entries. -/
def totalCost (calls : List APICall) : ℚ :=
  (calls.map (fun c => c.cost_usd)).sum

/-- Python truthiness of an optional job id. -/
def truthyJob : Option String → Bool
  | some j => j ≠ ""
  | none => false

lemma bucketCosts_cons (kb : String × Bucket) (rest : List (String × Bucket)) :
    bucketCosts (kb :: rest) = kb.2.cost + bucketCosts rest := by
  simp [bucketCosts]

lemma addBucket_costs (m : List (String × Bucket)) (key : String) (cost : ℚ)
    (tokens : Nat) :
    bucketCosts (addBucket m key cost tokens) = bucketCosts m + cost := by
  induction m with
  | nil => simp [addBucket, bucketCosts]
  | cons kb rest ih =>
    obtain ⟨k, b⟩ := kb
    by_cases hk : k = key
    · rw [addBucket, if_pos hk, bucketCosts_cons, bucketCosts_cons]
      ring
    · rw [addBucket, if_neg hk, bucketCosts_cons, bucketCosts_cons, ih]
      ring

lemma totalCost_cons (c : APICall) (rest : List APICall) :
    totalCost (c :: rest) = c.cost_usd + totalCost rest := by
  simp [totalCost]

lemma summaryStep_by_job_costs (s : Summary) (c : APICall) :
    bucketCosts (summaryStep s c).by_job
      = bucketCosts s.by_job + (if truthyJob c.job_id then c.cost_usd else 0) := by
  rcases hj : c.job_id with _ | j
  · simp [summaryStep, hj, truthyJob]
  · by_cases hje : j = ""
    · simp [summaryStep, hj, hje, truthyJob]
    · simp [summaryStep, hj, hje, truthyJob, addBucket_costs]

lemma summary_foldl_invariants (calls : List APICall) : ∀ acc : Summary,
    (calls.foldl summaryStep acc).total_cost = acc.total_cost + totalCost calls
    ∧ bucketCosts (calls.foldl summaryStep acc).by_service
        = bucketCosts acc.by_service + totalCost calls
    ∧ bucketCosts (calls.foldl summaryStep acc).by_model
        = bucketCosts acc.by_model + totalCost calls
    ∧ bucketCosts (calls.foldl summaryStep acc).by_job
        = bucketCosts acc.by_job
          + totalCost (calls.filter (fun c => truthyJob c.job_id)) := by
  induction calls with
  | nil => intro acc; simp [totalCost]
  | cons c rest ih =>
    intro acc
    obtain ⟨h1, h2, h3, h4⟩ := ih (summaryStep acc c)
    simp only [List.foldl_cons]
    refine ⟨?_, ?_, ?_, ?_⟩
    · rw [h1, totalCost_cons]
      simp [summaryStep]
      ring
    · rw [h2, totalCost_cons]
      simp only [summaryStep, addBucket_costs]
      ring
    · rw [h3, totalCost_cons]
      simp only [summaryStep, addBucket_costs]
      ring
    · rw [h4, summaryStep_by_job_costs]
      rw [List.filter_cons]
      by_cases ht : truthyJob c.job_id
      · rw [if_pos (by simpa using ht), if_pos ht, totalCost_cons]
        ring
      · rw [if_neg (by simpa using ht), if_neg ht]
        ring

lemma applyEvent_eq (calls : List APICall) (e : TrackEvent) :
    applyEvent calls e = (calls ++ [eventEntry e], eventCost e) := by
  cases e <;>
    simp [applyEvent, track_openai_call, track_llamaparse_call, eventEntry,
      eventCost]

lemma runEvents_from (events : List TrackEvent) : ∀ acc : List APICall,
    events.foldl (fun calls e => (applyEvent calls e).1) acc
      = acc ++ events.map eventEntry := by
  induction events with
  | nil => intro acc; simp
  | cons e rest ih =>
    intro acc
    rw [List.foldl_cons, applyEvent_eq, ih, List.map_cons]
    simp

lemma runEvents_eq (events : List TrackEvent) :
    runEvents events = events.map eventEntry := by
  simpa [runEvents] using runEvents_from events []

lemma eventEntry_cost (e : TrackEvent) : (eventEntry e).cost_usd = eventCost e := by
  cases e <;>
    simp [eventEntry, eventCost, applyEvent, track_openai_call,
      track_llamaparse_call]

lemma totalCost_runEvents (events : List TrackEvent) :
    totalCost (runEvents events) = (events.map eventCost).sum := by
  rw [runEvents_eq]
  induction events with
  | nil => simp [totalCost]
  | cons e rest ih =>
    rw [List.map_cons, List.map_cons, totalCost_cons, eventEntry_cost,
      List.sum_cons, ih]

/-- C3: refuted for the `by_job` partition — the ledger reached by a single
`track_openai_call("gpt-3.5-turbo", 1000000, 0, job_id=None)` has
`total_cost = 0.50`, but `get_summary` only enters calls with a truthy
`job_id` into `by_job`, so the `by_job` partition is empty and its costs sum
to `0`, not to `total_cost`. -/
theorem c3_by_job_partition_counterexample :
    (get_summary (runEvents
        [TrackEvent.openaiCall "gpt-3.5-turbo" 1000000 0 "chat_completion"
          none])).total_cost = 1/2
    ∧ bucketCosts (get_summary (runEvents
        [TrackEvent.openaiCall "gpt-3.5-turbo" 1000000 0 "chat_completion"
          none])).by_job = 0
    ∧ bucketCosts (get_summary (runEvents
        [TrackEvent.openaiCall "gpt-3.5-turbo" 1000000 0 "chat_completion"
          none])).by_job
      ≠ (get_summary (runEvents
        [TrackEvent.openaiCall "gpt-3.5-turbo" 1000000 0 "chat_completion"
          none])).total_cost := by
  have hcost : calculate_openai_cost "gpt-3.5-turbo" 1000000 0 = 1/2 := by
    norm_num [calculate_openai_cost, OPENAI_PRICING]
  refine ⟨?_, ?_, ?_⟩ <;>
    simp [get_summary, runEvents, applyEvent, track_openai_call, summaryStep,
      bucketCosts, hcost]

/-- C3 (amended): for every ledger state reachable by a sequence of
`track_openai_call` / `track_llamaparse_call` invocations, `get_summary`
satisfies: `total_cost` equals the sum of the costs returned by the
individual track calls, the `by_service` and `by_model` partitions each sum
to `total_cost`, and the `by_job` partition sums to the total cost of the
calls carrying a truthy (neither `None` nor empty) job id — which is not in
general `total_cost`. -/
theorem c3_summary_partition_sums (events : List TrackEvent) :
    (get_summary (runEvents events)).total_cost = (events.map eventCost).sum
    ∧ bucketCosts (get_summary (runEvents events)).by_service
        = (get_summary (runEvents events)).total_cost
    ∧ bucketCosts (get_summary (runEvents events)).by_model
        = (get_summary (runEvents events)).total_cost
    ∧ bucketCosts (get_summary (runEvents events)).by_job
        = totalCost ((runEvents events).filter (fun c => truthyJob c.job_id)) := by
  obtain ⟨h1, h2, h3, h4⟩ := summary_foldl_invariants (runEvents events)
    { total_cost := 0, total_calls := (runEvents events).length,
      by_service := [], by_model := [], by_job := [] }
  rw [get_summary] at *
  refine ⟨?_, ?_, ?_, ?_⟩
  · rw [h1, totalCost_runEvents]
    simp
  · rw [h2, h1]
    simp [bucketCosts]
  · rw [h3, h1]
    simp [bucketCosts]
  · rw [h4]
    simp [bucketCosts]

/-! ## `ProcessingSummary.finalize` (summary_generator.py lines 116-137) -/

/-- `cost_summary.get("by_job", {}).get(self.job_id, {"cost": 0.0})` followed
by `.get("cost", 0.0)` (summary_generator.py lines 125-126): the cost of the
job's bucket in the association-list dictionary, `0` when the job has no
bucket. -/
def lookupBucketCost : List (String × Bucket) → String → ℚ
  | [], _ => 0
  | (k, b) :: rest, key => if k = key then b.cost else lookupBucketCost rest key

lemma addBucket_lookup (m : List (String × Bucket)) (key : String) (cost : ℚ)
    (tokens : Nat) (k : String) :
    lookupBucketCost (addBucket m key cost tokens) k
      = lookupBucketCost m k + (if k = key then cost else 0) := by
  induction m with
  | nil =>
    by_cases hk : key = k
    · simp [addBucket, lookupBucketCost, hk]
    · have hk2 : ¬k = key := fun h => hk h.symm
      simp [addBucket, lookupBucketCost, hk, hk2]
  | cons kb rest ih =>
    obtain ⟨k', b⟩ := kb
    rw [addBucket]
    by_cases hk' : k' = key
    · rw [if_pos hk']
      by_cases hk : k' = k
      · rw [lookupBucketCost, if_pos hk, lookupBucketCost, if_pos hk,
          if_pos (by rw [← hk, hk'])]
      · rw [lookupBucketCost, if_neg hk, lookupBucketCost, if_neg hk,
          if_neg (fun h => hk (by rw [hk', ← h]))]
        ring
    · rw [if_neg hk']
      by_cases hk : k' = k
      · rw [lookupBucketCost, if_pos hk, lookupBucketCost, if_pos hk,
          if_neg (fun h => hk' (by rw [hk, h]))]
        ring
      · rw [lookupBucketCost, if_neg hk, lookupBucketCost, if_neg hk, ih]

/-- The cost and token fields computed by `ProcessingSummary.finalize`
(summary_generator.py lines 116-137): `total_cost_usd` is read from the
tracker summary's `by_job` bucket for this job id (0 when absent), and
the service breakdown is accumulated over the raw ledger entries with
`call.job_id == self.job_id`. -/
structure FinalizedCosts where
  total_cost_usd : ℚ
  llamaparse_cost_usd : ℚ
  openai_cost_usd : ℚ
  openai_tokens_used : Nat
deriving DecidableEq, Repr

/-- `ProcessingSummary.finalize` restricted to its cost computation. -/
def finalize (calls : List APICall) (jobId : String) : FinalizedCosts :=
  { total_cost_usd := lookupBucketCost (get_summary calls).by_job jobId,
    llamaparse_cost_usd := totalCost (calls.filter
      (fun c => c.job_id == some jobId && c.service == "llamaparse")),
    openai_cost_usd := totalCost (calls.filter
      (fun c => c.job_id == some jobId && c.service == "openai")),
    openai_tokens_used := ((calls.filter
      (fun c => c.job_id == some jobId && c.service == "openai")).map
        (fun c => c.total_tokens)).sum }

lemma summary_foldl_by_job_lookup (calls : List APICall) (jid : String)
    (hj : jid ≠ "") : ∀ acc : Summary,
    lookupBucketCost (calls.foldl summaryStep acc).by_job jid
      = lookupBucketCost acc.by_job jid
        + totalCost (calls.filter (fun c => c.job_id == some jid)) := by
  induction calls with
  | nil => intro acc; simp [totalCost]
  | cons c rest ih =>
    intro acc
    rw [List.foldl_cons, ih, List.filter_cons]
    have hstep : lookupBucketCost (summaryStep acc c).by_job jid
        = lookupBucketCost acc.by_job jid
          + (if (c.job_id == some jid) then c.cost_usd else 0) := by
      rcases hcj : c.job_id with _ | j
      · simp [summaryStep, hcj]
      · by_cases hje : j = ""
        · subst hje
          have : ¬(some "" == some jid) = true := by simp [Ne.symm hj]
          simp [summaryStep, hcj, this]
        · by_cases hjj : j = jid
          · subst hjj
            simp [summaryStep, hcj, hje, addBucket_lookup]
          · have : ¬(some j == some jid) = true := by simp [hjj]
            simp [summaryStep, hcj, hje, addBucket_lookup, Ne.symm hjj, this]
    rw [hstep]
    by_cases hc : (c.job_id == some jid) = true
    · rw [if_pos hc, if_pos hc, totalCost_cons]
      ring
    · rw [if_neg hc, if_neg (by simpa using hc)]
      ring

lemma get_summary_by_job_lookup (calls : List APICall) (jid : String)
    (hj : jid ≠ "") :
    lookupBucketCost (get_summary calls).by_job jid
      = totalCost (calls.filter (fun c => c.job_id == some jid)) := by
  rw [get_summary, summary_foldl_by_job_lookup calls jid hj]
  simp [lookupBucketCost]

/-! ## Data models (pdf2qa/models) -/

/-- A decoded JSON / Python value as produced by `json.loads` and passed
around untyped by the extractor; only the shapes its code paths inspect are
modelled. -/
inductive PyVal where
  | str (s : String)
  | int (n : Int)
  | list (l : List PyVal)
  | dict (d : List (String × PyVal))
  | noneVal

/-- Python truthiness of a decoded value (`if not statement_text`,
`if page`, ...). -/
def pyTruthy : PyVal → Bool
  | .str s => s ≠ ""
  | .int n => n ≠ 0
  | .list l => ¬l.isEmpty
  | .dict d => ¬d.isEmpty
  | .noneVal => false

/-- `dict.get(key)` on an insertion-ordered association list: the first
binding of the key, `none` when absent (Python's `None`). -/
def dictGet (d : List (String × PyVal)) (key : String) : Option PyVal :=
  match d with
  | [] => none
  | (k, v) :: rest => if k = key then some v else dictGet rest key

/-- The `Statement` model (models/statement.py lines 19-37): an id (a fresh
UUID in Python, supplied explicitly here), the statement text (whatever
decoded value the extractor stored) and its page list. -/
structure Statement where
  id : String
  text : PyVal
  pages : List PyVal

/-- The `Chunk` model (models/chunk.py lines 19-40); the Python attribute
`section` is spelt `section_` because `section` is a Lean keyword. -/
structure Chunk where
  id : String
  text : List Char
  pages : List Int
  section_ : Option String
deriving DecidableEq, Repr

/-- A value stored in `QAPair.metadata`. -/
inductive MetaVal where
  | pagesV (l : List PyVal)
  | strV (s : String)

/-- A single-key Python dict assignment on an insertion-ordered association
list: overwrite the first binding in place or append a fresh one. -/
def dictSet (m : List (String × MetaVal)) (k : String) (v : MetaVal) :
    List (String × MetaVal) :=
  match m with
  | [] => [(k, v)]
  | (k', v') :: rest =>
    if k' = k then (k', v) :: rest else (k', v') :: dictSet rest k v

/-- Python `dict.update`: assign every binding of the right dict in order. -/
def dictUpdate (m : List (String × MetaVal)) :
    List (String × MetaVal) → List (String × MetaVal)
  | [] => m
  | (k, v) :: rest => dictUpdate (dictSet m k v) rest

/-- The `QAPair` model (models/qa_pair.py lines 8-47). -/
structure QAPair where
  prompt : String
  completion : String
  metadata : List (String × MetaVal)

/-- `QAPair.__init__` (models/qa_pair.py lines 18-47): the metadata dict is
built with exactly the keys `pages`, `source`, `chunk_id` in that order, then
updated with any additional metadata. -/
def mkQAPair (prompt completion : String) (pages : List PyVal)
    (source chunk_id : String) (additional : List (String × MetaVal)) : QAPair :=
  { prompt := prompt, completion := completion,
    metadata := dictUpdate
      [("pages", MetaVal.pagesV pages), ("source", MetaVal.strV source),
        ("chunk_id", MetaVal.strV chunk_id)] additional }

/-! ## `QAGenerator` (qa_generator.py) -/

/-- The observable outcome of one `chat.completions.create` call: either the
call raises, or it returns a response carrying optional usage data (tracked
only when present and truthy, `if hasattr(response, 'usage') and
response.usage`) and an optional message content (`none` covers a response
whose `choices` are empty or whose content is absent or empty, which Python
treats as falsy). -/
inductive CallOutcome where
  | raise
  | ok (usage : Option (Nat × Nat)) (content : Option String)
deriving DecidableEq, Repr

/-- The ledger entries appended for one QA-generation API call
(qa_generator.py lines 171-180 and 251-260): one `track_openai_call` entry
when the response has usage data, none otherwise. -/
def usageEntries (model : String) (operation : String) (jobId : Option String) :
    Option (Nat × Nat) → List APICall
  | some (it, ot) => (track_openai_call [] model it ot operation jobId).1
  | none => []

/-- The `for prompt in prompts` call loop of
`QAGenerator._generate_questions` (qa_generator.py lines 162-182) for `n`
statements whose calls are numbered from `idx` by the oracle `out`: returns
the ledger entries appended (entries of calls made before a raise are kept)
and `some` list of raw contents, or `none` when some call raised. -/
def genQLoop (model : String) (jobId : Option String) (out : Nat → CallOutcome) :
    Nat → Nat → List APICall × Option (List (Option String))
  | 0, _ => ([], some [])
  | n + 1, idx =>
    match out idx with
    | .raise => ([], none)
    | .ok usage content =>
      let e := usageEntries model "question_generation" jobId usage
      let r := genQLoop model jobId out n (idx + 1)
      (e ++ r.1, r.2.map (content :: ·))

/-- `QAGenerator._generate_questions` (qa_generator.py lines 122-197) for a
batch of `n` statements: when any call raises, the whole batch degrades to
`[""] * len(statements)` (lines 192-195); otherwise each response contributes
its stripped content, with `""` for an absent or falsy content
(lines 185-190). -/
def generate_questions (n : Nat) (model : String) (jobId : Option String)
    (out : Nat → CallOutcome) (idx : Nat) : List APICall × List String :=
  match genQLoop model jobId out n idx with
  | (led, none) => (led, List.replicate n "")
  | (led, some cs) => (led, cs.map (fun c => (c.map pyStripStr).getD ""))

/-- The call loop of `QAGenerator._generate_answers` (qa_generator.py lines
213-262), indexed by statement position: a statement whose question is empty
gets an empty prompt and a `None` response with no API call (lines 216-219
and 239-242); otherwise the oracle decides the call, and a raise aborts the
remaining calls. -/
def genALoop (model : String) (jobId : Option String) (out : Nat → CallOutcome) :
    List String → Nat → List APICall × Option (List (Option String))
  | [], _ => ([], some [])
  | q :: qs, idx =>
    if q = "" then
      let r := genALoop model jobId out qs (idx + 1)
      (r.1, r.2.map (none :: ·))
    else
      match out idx with
      | .raise => ([], none)
      | .ok usage content =>
        let e := usageEntries model "answer_generation" jobId usage
        let r := genALoop model jobId out qs (idx + 1)
        (e ++ r.1, r.2.map (content :: ·))

/-- `QAGenerator._generate_answers` (qa_generator.py lines 199-277) for a
batch of `stsCount` statements and their questions: on an exception the whole
batch degrades to `[""] * len(statements)` (lines 272-275); otherwise each
response contributes its stripped content, with `""` for a skipped statement
or falsy content (lines 264-270). -/
def generate_answers (stsCount : Nat) (questions : List String) (model : String)
    (jobId : Option String) (out : Nat → CallOutcome) (idx : Nat) :
    List APICall × List String :=
  match genALoop model jobId out questions idx with
  | (led, none) => (led, List.replicate stsCount "")
  | (led, some cs) => (led, cs.map (fun c => (c.map pyStripStr).getD ""))

/-- The `for j, statement in enumerate(batch)` pairing loop of
`QAGenerator.generate` (qa_generator.py lines 98-113): a position `j` beyond
the end of the question or answer list is skipped (lines 99-101, the only
filtering the loop performs); otherwise a `QAPair` is built from
`questions[j]`, `answers[j]`, the statement's pages, the source and the
statement's id (lines 103-113). -/
def pairBatch (source : String) (qs ans : List String) :
    List Statement → Nat → List QAPair
  | [], _ => []
  | st :: rest, j =>
    (if j < qs.length ∧ j < ans.length then
      [mkQAPair (qs.getD j "") (ans.getD j "") st.pages source st.id []]
    else []) ++ pairBatch source qs ans rest (j + 1)

/-- The body of one batch iteration of `QAGenerator.generate`
(qa_generator.py lines 88-117): generate questions, then answers, then pair
them with the statements of the batch. -/
def generateBatch (batch : List Statement) (source model : String)
    (jobId : Option String) (qOut aOut : Nat → CallOutcome) (idx : Nat) :
    List APICall × List QAPair :=
  let q := generate_questions batch.length model jobId qOut idx
  let a := generate_answers batch.length q.2 model jobId aOut idx
  (q.1 ++ a.1, pairBatch source q.2 a.2 batch 0)

/-- The batch loop `for i in range(0, len(statements), self.batch_size)` of
`QAGenerator.generate` (qa_generator.py line 88) with batch size
`bsPred + 1`, driven by a structural fuel (any fuel of at least the number
of statements reaches the end of the list). -/
def generateGo (source model : String) (jobId : Option String) (bsPred : Nat)
    (qOut aOut : Nat → CallOutcome) :
    Nat → List Statement → Nat → List APICall × List QAPair
  | 0, _, _ => ([], [])
  | _ + 1, [], _ => ([], [])
  | fuel + 1, st :: rest, idx =>
    let batch := (st :: rest).take (bsPred + 1)
    let b := generateBatch batch source model jobId qOut aOut idx
    let r := generateGo source model jobId bsPred qOut aOut fuel
      ((st :: rest).drop (bsPred + 1)) (idx + (bsPred + 1))
    (b.1 ++ r.1, b.2 ++ r.2)

/-- `QAGenerator.generate` (qa_generator.py lines 71-120) with batch size
`bsPred + 1` (Python needs a positive batch size for
`range(0, n, batch_size)`): the ledger entries appended and the pairs
produced, the two call oracles being indexed by global statement position.
The number of statements itself bounds the number of batch iterations, so it
serves as the structural fuel. -/
def QAGenerator_generate (statements : List Statement) (source model : String)
    (jobId : Option String) (bsPred : Nat) (qOut aOut : Nat → CallOutcome) :
    List APICall × List QAPair :=
  generateGo source model jobId bsPred qOut aOut statements.length statements 0

lemma genQLoop_raise (model : String) (jobId : Option String)
    (out : Nat → CallOutcome) :
    ∀ n idx, (∃ j, j < n ∧ out (idx + j) = CallOutcome.raise) →
      (genQLoop model jobId out n idx).2 = none := by
  intro n
  induction n with
  | zero =>
    intro idx h
    obtain ⟨j, hj, -⟩ := h
    omega
  | succ m ih =>
    intro idx h
    obtain ⟨j, hj, hr⟩ := h
    rw [genQLoop]
    cases ho : out idx with
    | raise => rfl
    | ok u c =>
      show ((genQLoop model jobId out m (idx + 1)).2.map (c :: ·)) = none
      have hj0 : j ≠ 0 := by
        intro hz
        subst hz
        rw [Nat.add_zero] at hr
        rw [ho] at hr
        exact CallOutcome.noConfusion hr
      rw [ih (idx + 1)
        ⟨j - 1, by omega, by rw [show idx + 1 + (j - 1) = idx + j by omega]; exact hr⟩]
      rfl

lemma generate_questions_raise (n : Nat) (model : String) (jobId : Option String)
    (out : Nat → CallOutcome) (idx : Nat)
    (h : ∃ j, j < n ∧ out (idx + j) = CallOutcome.raise) :
    (generate_questions n model jobId out idx).2 = List.replicate n "" := by
  have h2 := genQLoop_raise model jobId out n idx h
  rw [generate_questions]
  rcases hq : genQLoop model jobId out n idx with ⟨led, res⟩
  rw [hq] at h2
  simp only [] at h2
  subst h2
  rfl

lemma genALoop_all_empty (model : String) (jobId : Option String)
    (out : Nat → CallOutcome) :
    ∀ (qs : List String) (idx : Nat), (∀ q ∈ qs, q = "") →
      genALoop model jobId out qs idx
        = ([], some (List.replicate qs.length none)) := by
  intro qs
  induction qs with
  | nil => intro idx _; rfl
  | cons q rest ih =>
    intro idx hq
    rw [genALoop, if_pos (hq q (by simp))]
    show ((genALoop model jobId out rest (idx + 1)).1,
      (genALoop model jobId out rest (idx + 1)).2.map (none :: ·)) = _
    rw [ih (idx + 1) (fun x hx => hq x (by simp [hx]))]
    simp [List.replicate_succ]

lemma generate_answers_all_empty (n : Nat) (model : String)
    (jobId : Option String) (out : Nat → CallOutcome) (idx : Nat) :
    generate_answers n (List.replicate n "") model jobId out idx
      = ([], List.replicate n "") := by
  rw [generate_answers, genALoop_all_empty model jobId out _ idx (by simp)]
  simp [List.map_replicate]

lemma getD_replicate_self {α : Type} (a : α) :
    ∀ n j, (List.replicate n a).getD j a = a := by
  intro n
  induction n with
  | zero => intro j; rfl
  | succ m ih =>
    intro j
    cases j with
    | zero => rfl
    | succ k =>
      rw [List.replicate_succ]
      simp [ih k]

lemma pairBatch_all_empty (source : String) :
    ∀ (batch : List Statement) (j n : Nat), batch.length + j ≤ n →
      pairBatch source (List.replicate n "") (List.replicate n "") batch j
        = batch.map (fun st => mkQAPair "" "" st.pages source st.id []) := by
  intro batch
  induction batch with
  | nil => intro j n _; rfl
  | cons st rest ih =>
    intro j n h
    have hlen : (st :: rest).length = rest.length + 1 := by simp
    have hj : j < n := by rw [hlen] at h; omega
    rw [pairBatch,
      if_pos ⟨by simpa using hj, by simpa using hj⟩,
      getD_replicate_self, List.map_cons, List.singleton_append]
    congr 1
    exact ih (j + 1) n (by rw [hlen] at h; omega)

/-- Five concrete statements forming one batch for the C1 scenario. -/
def c1Batch : List Statement :=
  [⟨"s1", .str "t1", [.int 1]⟩, ⟨"s2", .str "t2", [.int 1]⟩,
   ⟨"s3", .str "t3", [.int 2]⟩, ⟨"s4", .str "t4", [.int 2]⟩,
   ⟨"s5", .str "t5", [.int 3]⟩]

/-- Question oracle for the C1 scenario: the third question-generation call
(global index 2) raises; all others return a question. -/
def c1QOut : Nat → CallOutcome :=
  fun j => if j = 2 then .raise else .ok none (some "A question?")

/-- Answer oracle for the C1 scenario: every made call returns an answer. -/
def c1AOut : Nat → CallOutcome :=
  fun _ => .ok none (some "An answer.")

/-- C1: refuted — for a batch of 5 statements whose 3rd question-generation
call raises, `QAGenerator.generate` (batch size 5) produces 5 QA pairs for
the batch, not 0: the pairing loop only skips indices beyond the end of the
question or answer lists, and the exception path fills both lists with
exactly `len(batch)` empty strings, which are never filtered out. -/
theorem c1_failed_batch_counterexample :
    (QAGenerator_generate c1Batch "doc.pdf" "gpt-3.5-turbo" none 4
        c1QOut c1AOut).2.length = 5
    ∧ ¬((QAGenerator_generate c1Batch "doc.pdf" "gpt-3.5-turbo" none 4
        c1QOut c1AOut).2.length = 0) := by
  constructor
  · rfl
  · intro h
    rw [show (QAGenerator_generate c1Batch "doc.pdf" "gpt-3.5-turbo" none 4
      c1QOut c1AOut).2.length = 5 from rfl] at h
    exact Nat.noConfusion h

/-- C1 (amended): for every batch processed by `QAGenerator.generate`, if
any question-generation call of the batch raises, the batch's questions and
answers are all degraded to empty strings, `generate` does not raise (the
model is a total function), and the batch contributes exactly
`len(batch)` QA pairs — each with empty prompt and empty completion — rather
than zero: the empty strings are not filtered out at pairing time. -/
theorem c1_failed_batch_amended (batch : List Statement) (source model : String)
    (jobId : Option String) (qOut aOut : Nat → CallOutcome) (idx : Nat)
    (h : ∃ j, j < batch.length ∧ qOut (idx + j) = CallOutcome.raise) :
    (generateBatch batch source model jobId qOut aOut idx).2
      = batch.map (fun st => mkQAPair "" "" st.pages source st.id [])
    ∧ (generateBatch batch source model jobId qOut aOut idx).2.length
      = batch.length := by
  have hq := generate_questions_raise batch.length model jobId qOut idx h
  have heq : (generateBatch batch source model jobId qOut aOut idx).2
      = pairBatch source
          (generate_questions batch.length model jobId qOut idx).2
          (generate_answers batch.length
            (generate_questions batch.length model jobId qOut idx).2
            model jobId aOut idx).2 batch 0 := rfl
  rw [heq, hq, generate_answers_all_empty]
  constructor
  · exact pairBatch_all_empty source batch 0 batch.length (by omega)
  · rw [pairBatch_all_empty source batch 0 batch.length (by omega)]
    simp

/-- Concrete application of the amended C1 theorem: the one batch of the
counterexample scenario evaluates to five QA pairs with empty prompts and
completions. -/
theorem c1_failed_batch_amended_witness :
    (generateBatch c1Batch "doc.pdf" "gpt-3.5-turbo" none c1QOut c1AOut 0).2
      = c1Batch.map (fun st => mkQAPair "" "" st.pages "doc.pdf" st.id [])
    ∧ (generateBatch c1Batch "doc.pdf" "gpt-3.5-turbo" none c1QOut c1AOut 0).2.length
      = c1Batch.length :=
  c1_failed_batch_amended c1Batch "doc.pdf" "gpt-3.5-turbo" none c1QOut c1AOut 0
    ⟨2, by decide, rfl⟩

lemma pairBatch_mem (source : String) (qs ans : List String) :
    ∀ (batch : List Statement) (j : Nat) (p : QAPair),
      p ∈ pairBatch source qs ans batch j →
      ∃ st ∈ batch, ∃ q a, p = mkQAPair q a st.pages source st.id [] := by
  intro batch
  induction batch with
  | nil => intro j p hp; simp [pairBatch] at hp
  | cons st rest ih =>
    intro j p hp
    rw [pairBatch] at hp
    rcases List.mem_append.mp hp with h1 | h2
    · by_cases hc : j < qs.length ∧ j < ans.length
      · rw [if_pos hc] at h1
        simp only [List.mem_singleton] at h1
        exact ⟨st, by simp, _, _, h1⟩
      · rw [if_neg hc] at h1
        simp at h1
    · obtain ⟨st', hst', q, a, hpa⟩ := ih (j + 1) p h2
      exact ⟨st', by simp [hst'], q, a, hpa⟩

lemma generateGo_mem (source model : String) (jobId : Option String)
    (bsPred : Nat) (qOut aOut : Nat → CallOutcome) :
    ∀ (fuel : Nat) (sts : List Statement) (idx : Nat) (p : QAPair),
      p ∈ (generateGo source model jobId bsPred qOut aOut fuel sts idx).2 →
      ∃ st ∈ sts, ∃ q a, p = mkQAPair q a st.pages source st.id [] := by
  intro fuel
  induction fuel with
  | zero => intro sts idx p hp; simp [generateGo] at hp
  | succ m ih =>
    intro sts idx p hp
    cases sts with
    | nil => simp [generateGo] at hp
    | cons st rest =>
      have hp2 : p ∈ (generateBatch ((st :: rest).take (bsPred + 1))
            source model jobId qOut aOut idx).2
          ++ (generateGo source model jobId bsPred qOut aOut m
            ((st :: rest).drop (bsPred + 1)) (idx + (bsPred + 1))).2 := hp
      rcases List.mem_append.mp hp2 with h1 | h2
      · have h1' : p ∈ pairBatch source
            (generate_questions ((st :: rest).take (bsPred + 1)).length
              model jobId qOut idx).2
            (generate_answers ((st :: rest).take (bsPred + 1)).length
              (generate_questions ((st :: rest).take (bsPred + 1)).length
                model jobId qOut idx).2 model jobId aOut idx).2
            ((st :: rest).take (bsPred + 1)) 0 := h1
        obtain ⟨st', hst', q, a, hpa⟩ := pairBatch_mem source _ _ _ _ _ h1'
        exact ⟨st', List.take_subset _ _ hst', q, a, hpa⟩
      · obtain ⟨st', hst', q, a, hpa⟩ := ih _ _ p h2
        exact ⟨st', List.drop_subset _ _ hst', q, a, hpa⟩

/-- C9: every QA pair built by `QAGenerator.generate` has a metadata map
with exactly the keys `pages`, `source` and `chunk_id` (in that order),
where `chunk_id` holds the id of the originating `Statement` (not of a
`Chunk`, despite the key's name) and `pages` is that statement's page
list. -/
theorem c9_qa_pair_metadata (sts : List Statement) (source model : String)
    (jobId : Option String) (bsPred : Nat) (qOut aOut : Nat → CallOutcome)
    (p : QAPair)
    (hp : p ∈ (QAGenerator_generate sts source model jobId bsPred qOut aOut).2) :
    ∃ st ∈ sts,
      p.metadata.map Prod.fst = ["pages", "source", "chunk_id"]
      ∧ p.metadata.lookup "chunk_id" = some (MetaVal.strV st.id)
      ∧ p.metadata.lookup "pages" = some (MetaVal.pagesV st.pages) := by
  obtain ⟨st, hst, q, a, hpa⟩ :=
    generateGo_mem source model jobId bsPred qOut aOut sts.length sts 0 p hp
  subst hpa
  exact ⟨st, hst, rfl, rfl, rfl⟩

/-- Two concrete statements for the C9 witness run. -/
def c9Sts : List Statement :=
  [⟨"sa", .str "ta", [.int 1]⟩, ⟨"sb", .str "tb", [.int 2]⟩]

/-- Concrete application of the C9 theorem: in a 2-statement run whose calls
all succeed, the first produced pair carries exactly the three metadata keys,
the id of its statement under `chunk_id`, and that statement's pages. -/
theorem c9_qa_pair_metadata_witness :
    ∃ st ∈ c9Sts,
      (mkQAPair "Q?" "A." [.int 1] "src.pdf" "sa" []).metadata.map Prod.fst
        = ["pages", "source", "chunk_id"]
      ∧ (mkQAPair "Q?" "A." [.int 1] "src.pdf" "sa" []).metadata.lookup "chunk_id"
        = some (MetaVal.strV st.id)
      ∧ (mkQAPair "Q?" "A." [.int 1] "src.pdf" "sa" []).metadata.lookup "pages"
        = some (MetaVal.pagesV st.pages) :=
  c9_qa_pair_metadata c9Sts "src.pdf" "gpt-3.5-turbo" none 4
    (fun _ => .ok none (some "Q?")) (fun _ => .ok none (some "A."))
    (mkQAPair "Q?" "A." [.int 1] "src.pdf" "sa" [])
    (by
      have h : (QAGenerator_generate c9Sts "src.pdf" "gpt-3.5-turbo" none 4
            (fun _ => .ok none (some "Q?")) (fun _ => .ok none (some "A."))).2
          = [mkQAPair "Q?" "A." [.int 1] "src.pdf" "sa" [],
             mkQAPair "Q?" "A." [.int 2] "src.pdf" "sb" []] := rfl
      rw [h]
      exact List.mem_cons_self _ _)

/-! ## `LlamaExtractor` (llama_extractor.py) -/

/-- The observable outcome of the extractor's completion call for one chunk
(llama_extractor.py lines 111-133): the call raises, or returns a response
with optional usage data (tracked only when present and truthy) and an
optional content string (`none` when `choices` is falsy or the content is
absent or empty). -/
inductive ExtractResp where
  | raise
  | ok (usage : Option (Nat × Nat)) (content : Option (List Char))

/-- The text of the synthetic placeholder statement
(llama_extractor.py lines 155 and 159). -/
def placeholderMsg (text : List Char) : String :=
  "Sample statement extracted from text of length " ++ toString text.length ++ "."

/-- The synthetic placeholder dictionary
`{"statement": ..., "page": pages[0] if pages else 1}`
(llama_extractor.py lines 155 and 159). -/
def placeholderDict (text : List Char) (pages : List Int) :
    List (String × PyVal) :=
  [("statement", PyVal.str (placeholderMsg text)),
   ("page", PyVal.int (pages.headD 1))]

/-- Python `content.find('[')`: the index of the first occurrence, `none`
standing for Python's `-1`. -/
def pyFind (s : List Char) (c : Char) : Option Nat :=
  s.findIdx? (· == c)

/-- Python `content.rfind(']')`: the index of the last occurrence, `none`
standing for Python's `-1`. -/
def pyRFind (s : List Char) (c : Char) : Option Nat :=
  (s.reverse.findIdx? (· == c)).map (fun i => s.length - 1 - i)

/-- `content[start_idx:end_idx]` for `start_idx = content.find('[')` and
`end_idx = content.rfind(']') + 1`, under the guard
`start_idx >= 0 and end_idx > start_idx` (llama_extractor.py lines 137-142):
`none` when the guard fails and the code falls through to the placeholder. -/
def arraySlice (content : List Char) : Option (List Char) :=
  match pyFind content '[', pyRFind content ']' with
  | some si, some ri =>
    if si < ri + 1 then some ((content.drop si).take (ri + 1 - si)) else none
  | _, _ => none

/-- `"page" in s` for a string `s`: Python substring containment, which is
how the mutation loop's `"page" not in statement` test reads a string
element. -/
def hasPageSubstring (s : String) : Bool :=
  (List.range (s.data.length + 1)).any
    (fun i => "page".data.isPrefixOf (s.data.drop i))

/-- The effect of the mutation loop `if "page" not in statement:
statement["page"] = ...` (llama_extractor.py lines 146-148) on one element:
a dict gains a default `page` key, a string containing `"page"` passes
through untouched, and every other element raises `TypeError` (`none`),
which the outer handler converts to the placeholder. -/
def mutateElement (pages : List Int) : PyVal → Option PyVal
  | .dict d =>
    some (.dict (match dictGet d "page" with
      | some _ => d
      | none => d ++ [("page", PyVal.int (pages.headD 1))]))
  | .str s => if hasPageSubstring s then some (.str s) else none
  | _ => none

/-- The whole mutation loop over the parsed array: `none` when any element
raises. -/
def mutateLoaded (pages : List Int) (items : List PyVal) : Option (List PyVal) :=
  items.mapM (mutateElement pages)

/-- `LlamaExtractor._extract_statements` (llama_extractor.py lines 84-159):
returns the cost-ledger entries it appends (note line 120-129 passes no
`job_id`, so the entry's job id is `None`) and the Python list it returns.
`loads` models `json.loads` applied to the bracket-delimited slice: the
items of the parsed array, or `none` for a `JSONDecodeError`.  Every failure
path returns the single placeholder dictionary. -/
def extract_statements (text : List Char) (pages : List Int) (model : String)
    (resp : ExtractResp) (loads : List Char → Option (List PyVal)) :
    List APICall × List PyVal :=
  match resp with
  | .raise => ([], [PyVal.dict (placeholderDict text pages)])
  | .ok usage content =>
    let entries :=
      match usage with
      | some (it, ot) => (track_openai_call [] model it ot "extraction" none).1
      | none => []
    let stmts :=
      match content with
      | none => [PyVal.dict (placeholderDict text pages)]
      | some raw =>
        match arraySlice (pyStrip raw) with
        | some sl =>
          match loads sl with
          | some items =>
            match mutateLoaded pages items with
            | some processed => processed
            | none => [PyVal.dict (placeholderDict text pages)]
          | none => [PyVal.dict (placeholderDict text pages)]
        | none => [PyVal.dict (placeholderDict text pages)]
    (entries, stmts)

/-- The `for result in extraction_results` half of `LlamaExtractor.extract`
(llama_extractor.py lines 181-197), with `n` counting the statements already
created (to index the id supply): a result without a truthy `statement`
value is skipped; the page list is `[page]` when the `page` value is truthy
and the chunk's pages otherwise; a non-dict result has no `.get`, raising
`AttributeError`, which the per-chunk handler (lines 199-202) catches —
keeping the statements already appended and moving to the next chunk. -/
def resultsToStatements (c : Chunk) (ids : Nat → String) :
    List PyVal → Nat → List Statement
  | [], _ => []
  | .dict d :: rest, n =>
    (match dictGet d "statement" with
    | some v =>
      if pyTruthy v then
        ⟨ids n, v,
          match dictGet d "page" with
          | some pv => if pyTruthy pv then [pv] else c.pages.map PyVal.int
          | none => c.pages.map PyVal.int⟩
          :: resultsToStatements c ids rest (n + 1)
      else resultsToStatements c ids rest n
    | none => resultsToStatements c ids rest n)
  | _ :: _, _ => []

/-- The `for chunk in chunks` loop of `LlamaExtractor.extract`
(llama_extractor.py lines 175-202): each chunk is processed independently —
the response oracle is indexed by chunk position `ci`, the id supply by the
number `n` of statements created so far — and the ledger entries and
statements are concatenated. -/
def extractLoop (model : String) (loads : List Char → Option (List PyVal))
    (ids : Nat → String) :
    List Chunk → (Nat → ExtractResp) → Nat → Nat → List APICall × List Statement
  | [], _, _, _ => ([], [])
  | c :: rest, resps, ci, n =>
    let r := extract_statements c.text c.pages model (resps ci) loads
    let sts := resultsToStatements c ids r.2 n
    let tail := extractLoop model loads ids rest resps (ci + 1) (n + sts.length)
    (r.1 ++ tail.1, sts ++ tail.2)

/-- `LlamaExtractor.extract` (llama_extractor.py lines 161-205).  The
`job_id` argument of the Python method is accepted but never forwarded to
the cost tracker, so it does not appear here at all. -/
def LlamaExtractor_extract (model : String)
    (loads : List Char → Option (List PyVal)) (ids : Nat → String)
    (chunks : List Chunk) (resps : Nat → ExtractResp) :
    List APICall × List Statement :=
  extractLoop model loads ids chunks resps 0 0

/-- The failure condition of C6 for one chunk's response: the call raised,
the content was absent or falsy, or no parsable JSON array was found in the
content (no bracketed slice, or `json.loads` failing on it). -/
def respFails (resp : ExtractResp)
    (loads : List Char → Option (List PyVal)) : Prop :=
  match resp with
  | .raise => True
  | .ok _ none => True
  | .ok _ (some raw) =>
    match arraySlice (pyStrip raw) with
    | none => True
    | some sl => loads sl = none

lemma extract_statements_fails (text : List Char) (pages : List Int)
    (model : String) (resp : ExtractResp)
    (loads : List Char → Option (List PyVal)) (h : respFails resp loads) :
    (extract_statements text pages model resp loads).2
      = [PyVal.dict (placeholderDict text pages)] := by
  cases resp with
  | raise => rfl
  | ok u content =>
    cases content with
    | none => rfl
    | some raw =>
      simp only [respFails] at h
      simp only [extract_statements]
      cases hs : arraySlice (pyStrip raw) with
      | none => simp [hs]
      | some sl =>
        rw [hs] at h
        simp [hs, h]

lemma placeholderMsg_ne_empty (text : List Char) : placeholderMsg text ≠ "" := by
  intro h
  have hl := congrArg String.length h
  rw [placeholderMsg, String.length_append, String.length_append] at hl
  have h1 : 0 < ("Sample statement extracted from text of length ").length := by
    decide
  have h2 : (".").length = 1 := by decide
  have h3 : ("" : String).length = 0 := by decide
  omega

lemma resultsToStatements_placeholder (c : Chunk) (ids : Nat → String) (n : Nat)
    (hpage : c.pages.headD 1 ≠ 0) :
    resultsToStatements c ids [PyVal.dict (placeholderDict c.text c.pages)] n
      = [⟨ids n, PyVal.str (placeholderMsg c.text),
          [PyVal.int (c.pages.headD 1)]⟩] := by
  have hpage' : ¬c.pages.head?.getD 1 = 0 := by simpa using hpage
  have ht : pyTruthy (PyVal.int (c.pages.headD 1)) = true := by
    simp [pyTruthy, hpage']
  rw [resultsToStatements]
  simp [placeholderDict, dictGet, pyTruthy, placeholderMsg_ne_empty c.text,
    ht, hpage', resultsToStatements]

/-- C6: for every chunk whose completion call raises, whose response content
is absent or falsy, or whose content holds no parsable JSON array, the
extractor emits exactly one synthetic placeholder statement for that chunk —
its text names the chunk's text length and its page list is the chunk's
first page — it does not raise (the model is a total function), and the
remaining chunks are still extracted: the result is the placeholder consed
onto the extraction of the rest. -/
theorem c6_extract_failure_placeholder (model : String)
    (loads : List Char → Option (List PyVal)) (ids : Nat → String) (c : Chunk)
    (rest : List Chunk) (resps : Nat → ExtractResp)
    (hfail : respFails (resps 0) loads) (hpage : c.pages.headD 1 ≠ 0) :
    (LlamaExtractor_extract model loads ids (c :: rest) resps).2
      = ⟨ids 0, PyVal.str (placeholderMsg c.text), [PyVal.int (c.pages.headD 1)]⟩
        :: (extractLoop model loads ids rest resps 1 1).2 := by
  show (resultsToStatements c ids
      (extract_statements c.text c.pages model (resps 0) loads).2 0
    ++ (extractLoop model loads ids rest resps (0 + 1)
      (0 + (resultsToStatements c ids
        (extract_statements c.text c.pages model (resps 0) loads).2 0).length)).2)
    = _
  rw [extract_statements_fails c.text c.pages model (resps 0) loads hfail,
    resultsToStatements_placeholder c ids 0 hpage]
  simp

/-- A concrete chunk for the C6 and C10 scenarios. -/
def exChunk : Chunk := ⟨"ch1", "Some chunk text here".data, [4, 5], none⟩

/-- A concrete id supply standing for the UUID generator. -/
def exIds : Nat → String := fun n => "statement-" ++ toString n

/-- A concrete `json.loads` model for the C6 witness: every slice fails to
parse. -/
def exLoadsFail : List Char → Option (List PyVal) := fun _ => none

/-- Concrete application of the C6 theorem: a chunk whose call raises,
followed by one more chunk, yields exactly the placeholder statement for the
first chunk consed onto the extraction of the second. -/
theorem c6_extract_failure_placeholder_witness :
    (LlamaExtractor_extract "gpt-3.5-turbo" exLoadsFail exIds [exChunk, exChunk]
      (fun ci => if ci = 0 then .raise else .ok none (some "[]".data))).2
      = ⟨exIds 0, PyVal.str (placeholderMsg exChunk.text),
          [PyVal.int (exChunk.pages.headD 1)]⟩
        :: (extractLoop "gpt-3.5-turbo" exLoadsFail exIds [exChunk]
          (fun ci => if ci = 0 then .raise else .ok none (some "[]".data)) 1 1).2 :=
  c6_extract_failure_placeholder "gpt-3.5-turbo" exLoadsFail exIds exChunk
    [exChunk] (fun ci => if ci = 0 then .raise else .ok none (some "[]".data))
    trivial (by decide)

/-- A concrete `json.loads` model parsing exactly the empty JSON array. -/
def exLoadsEmptyArray : List Char → Option (List PyVal) := fun sl =>
  if sl = "[]".data then some [] else none

/-- A concrete `json.loads` model parsing exactly the one-object array
`[{"page": 3}]`, whose object lacks a `statement` field. -/
def exLoadsNoStatement : List Char → Option (List PyVal) := fun sl =>
  if sl = "[\x7b\"page\": 3\x7d]".data then some [.dict [("page", .int 3)]] else none

/-- C10: there are well-formed backend responses for which the extractor
emits zero statements for a chunk and no synthetic placeholder: a response
whose JSON array parses as the empty array `[]`, and one whose single array
item lacks a `statement` field, both yield no `Statement` objects for the
chunk. -/
theorem c10_wellformed_zero_statements :
    (LlamaExtractor_extract "gpt-3.5-turbo" exLoadsEmptyArray exIds [exChunk]
      (fun _ => .ok none (some "[]".data))).2 = []
    ∧ (LlamaExtractor_extract "gpt-3.5-turbo" exLoadsNoStatement exIds [exChunk]
      (fun _ => .ok none (some "[\x7b\"page\": 3\x7d]".data))).2 = [] :=
  ⟨rfl, rfl⟩

/-! ## `Pipeline.run` stage ordering (pipeline.py lines 119-219) -/

/-- The externally visible steps of one `Pipeline.run` invocation. -/
inductive RunEvent where
  | parsing
  | exportContent
  | extraction
  | qaGeneration
  | exportQA
  | finalizeSummary
deriving DecidableEq, Repr

/-- How a `Pipeline.run` invocation ends: normally, by the early
`logger.error(...); return` of a stage-order violation (pipeline.py lines
174-176 and 187-189), or by an exception propagating out of an executed
stage. -/
inductive RunOutcome where
  | completed
  | haltedStageOrder
  | raised
deriving DecidableEq, Repr

/-- The stage skeleton of `Pipeline.run` (pipeline.py lines 152-219) as a
function of the three skip flags; `parseRaises` / `extractRaises` /
`qaRaises` say whether the corresponding component call would raise if
executed.  Events happen in source order; a stage-order violation returns
early, before the violating stage runs. -/
def runStages (skipParse skipExtract skipQA : Bool)
    (parseRaises extractRaises qaRaises : Bool) : List RunEvent × RunOutcome :=
  if !skipParse && parseRaises then ([RunEvent.parsing], RunOutcome.raised)
  else
    let evParse : List RunEvent :=
      if skipParse then [] else [RunEvent.parsing, RunEvent.exportContent]
    if !skipExtract && skipParse then (evParse, RunOutcome.haltedStageOrder)
    else if !skipExtract && extractRaises then
      (evParse ++ [RunEvent.extraction], RunOutcome.raised)
    else
      let evExtract :=
        if skipExtract then evParse else evParse ++ [RunEvent.extraction]
      if !skipQA && skipExtract then (evExtract, RunOutcome.haltedStageOrder)
      else if !skipQA && qaRaises then
        (evExtract ++ [RunEvent.qaGeneration], RunOutcome.raised)
      else
        let evQA :=
          if skipQA then evExtract
          else evExtract ++ [RunEvent.qaGeneration, RunEvent.exportQA]
        (evQA ++ [RunEvent.finalizeSummary], RunOutcome.completed)

/-- C5: refuted in its second half — an invocation with `skip_extract=True`
and `skip_qa=False` but `skip_parse=False` whose parsing stage raises (for
instance on a missing input file, `parser.parse` raising
`FileNotFoundError`) makes the run raise, so "does not raise" does not hold
for every such invocation. -/
theorem c5_skip_extract_can_raise :
    runStages false true false true false false
      = ([RunEvent.parsing], RunOutcome.raised) := by
  decide

/-- C5 (amended): a run with `skip_parse=True` and `skip_extract=False`
always halts at the stage-order check — before the extractor runs, with no
extraction output and without raising — whatever the other flags; and a run
with `skip_extract=True` and `skip_qa=False` never reaches the QA generator,
and halts at the stage-order check without raising provided the parsing
stage, when enabled, does not itself raise. -/
theorem c5_stage_order_halts (skipParse skipQA pr er qr : Bool)
    (h : skipParse = true ∨ pr = false) :
    runStages true false skipQA pr er qr = ([], RunOutcome.haltedStageOrder)
    ∧ RunEvent.qaGeneration ∉ (runStages skipParse true false pr er qr).1
    ∧ (runStages skipParse true false pr er qr).2
        = RunOutcome.haltedStageOrder := by
  revert h
  cases skipParse <;> cases skipQA <;> cases pr <;> cases er <;> cases qr <;>
    decide

/-- Concrete application of the amended C5 theorem with all stages
well-behaved. -/
theorem c5_stage_order_halts_witness :
    runStages true false false false false false
      = ([], RunOutcome.haltedStageOrder)
    ∧ RunEvent.qaGeneration ∉ (runStages true true false false false false).1
    ∧ (runStages true true false false false false).2
        = RunOutcome.haltedStageOrder :=
  c5_stage_order_halts true false false false false (Or.inl rfl)

/-! ## Pipeline cost attribution (C8) -/

lemma usageEntries_fields (model op : String) (jobId : Option String)
    (u : Option (Nat × Nat)) :
    ∀ e ∈ usageEntries model op jobId u,
      e.job_id = jobId ∧ e.service = "openai" := by
  cases u with
  | none => simp [usageEntries]
  | some p =>
    obtain ⟨it, ot⟩ := p
    simp [usageEntries, track_openai_call]

lemma genQLoop_entries (model : String) (jobId : Option String)
    (out : Nat → CallOutcome) :
    ∀ (n idx : Nat), ∀ e ∈ (genQLoop model jobId out n idx).1,
      e.job_id = jobId ∧ e.service = "openai" := by
  intro n
  induction n with
  | zero => intro idx e he; simp [genQLoop] at he
  | succ m ih =>
    intro idx e he
    rw [genQLoop] at he
    cases ho : out idx with
    | raise => rw [ho] at he; simp at he
    | ok u c =>
      rw [ho] at he
      have he2 : e ∈ usageEntries model "question_generation" jobId u
          ++ (genQLoop model jobId out m (idx + 1)).1 := he
      rcases List.mem_append.mp he2 with h1 | h2
      · exact usageEntries_fields _ _ _ _ e h1
      · exact ih (idx + 1) e h2

lemma genALoop_entries (model : String) (jobId : Option String)
    (out : Nat → CallOutcome) :
    ∀ (qs : List String) (idx : Nat), ∀ e ∈ (genALoop model jobId out qs idx).1,
      e.job_id = jobId ∧ e.service = "openai" := by
  intro qs
  induction qs with
  | nil => intro idx e he; simp [genALoop] at he
  | cons q rest ih =>
    intro idx e he
    rw [genALoop] at he
    by_cases hq : q = ""
    · rw [if_pos hq] at he
      exact ih (idx + 1) e he
    · rw [if_neg hq] at he
      cases ho : out idx with
      | raise => rw [ho] at he; simp at he
      | ok u c =>
        rw [ho] at he
        have he2 : e ∈ usageEntries model "answer_generation" jobId u
            ++ (genALoop model jobId out rest (idx + 1)).1 := he
        rcases List.mem_append.mp he2 with h1 | h2
        · exact usageEntries_fields _ _ _ _ e h1
        · exact ih (idx + 1) e h2

lemma generate_questions_fst (n : Nat) (model : String) (jobId : Option String)
    (out : Nat → CallOutcome) (idx : Nat) :
    (generate_questions n model jobId out idx).1
      = (genQLoop model jobId out n idx).1 := by
  rcases h : genQLoop model jobId out n idx with ⟨led, res⟩
  rw [generate_questions, h]
  cases res <;> rfl

lemma generate_answers_fst (stsCount : Nat) (questions : List String)
    (model : String) (jobId : Option String) (out : Nat → CallOutcome)
    (idx : Nat) :
    (generate_answers stsCount questions model jobId out idx).1
      = (genALoop model jobId out questions idx).1 := by
  rcases h : genALoop model jobId out questions idx with ⟨led, res⟩
  rw [generate_answers, h]
  cases res <;> rfl

lemma generateBatch_entries (batch : List Statement) (source model : String)
    (jobId : Option String) (qOut aOut : Nat → CallOutcome) (idx : Nat) :
    ∀ e ∈ (generateBatch batch source model jobId qOut aOut idx).1,
      e.job_id = jobId ∧ e.service = "openai" := by
  intro e he
  have he2 : e ∈ (generate_questions batch.length model jobId qOut idx).1
      ++ (generate_answers batch.length
        (generate_questions batch.length model jobId qOut idx).2
        model jobId aOut idx).1 := he
  rcases List.mem_append.mp he2 with h1 | h2
  · rw [generate_questions_fst] at h1
    exact genQLoop_entries model jobId qOut _ _ e h1
  · rw [generate_answers_fst] at h2
    exact genALoop_entries model jobId aOut _ _ e h2

lemma generateGo_entries (source model : String) (jobId : Option String)
    (bsPred : Nat) (qOut aOut : Nat → CallOutcome) :
    ∀ (fuel : Nat) (sts : List Statement) (idx : Nat),
      ∀ e ∈ (generateGo source model jobId bsPred qOut aOut fuel sts idx).1,
        e.job_id = jobId ∧ e.service = "openai" := by
  intro fuel
  induction fuel with
  | zero => intro sts idx e he; simp [generateGo] at he
  | succ m ih =>
    intro sts idx e he
    cases sts with
    | nil => simp [generateGo] at he
    | cons st rest =>
      have he2 : e ∈ (generateBatch ((st :: rest).take (bsPred + 1))
            source model jobId qOut aOut idx).1
          ++ (generateGo source model jobId bsPred qOut aOut m
            ((st :: rest).drop (bsPred + 1)) (idx + (bsPred + 1))).1 := he
      rcases List.mem_append.mp he2 with h1 | h2
      · exact generateBatch_entries _ _ _ _ _ _ _ e h1
      · exact ih _ _ e h2

lemma QAGenerator_generate_entries (sts : List Statement)
    (source model : String) (jobId : Option String) (bsPred : Nat)
    (qOut aOut : Nat → CallOutcome) :
    ∀ e ∈ (QAGenerator_generate sts source model jobId bsPred qOut aOut).1,
      e.job_id = jobId ∧ e.service = "openai" :=
  generateGo_entries source model jobId bsPred qOut aOut sts.length sts 0

lemma extract_statements_entries (text : List Char) (pages : List Int)
    (model : String) (resp : ExtractResp)
    (loads : List Char → Option (List PyVal)) :
    ∀ e ∈ (extract_statements text pages model resp loads).1,
      e.job_id = none ∧ e.service = "openai" := by
  cases resp with
  | raise => intro e he; simp [extract_statements] at he
  | ok u content =>
    cases u with
    | none =>
      intro e he
      exact absurd he (by simp [extract_statements])
    | some p =>
      obtain ⟨it, ot⟩ := p
      intro e he
      have he2 : e ∈ (track_openai_call [] model it ot "extraction" none).1 := he
      simp only [track_openai_call, List.nil_append, List.mem_singleton] at he2
      subst he2
      exact ⟨rfl, rfl⟩

lemma extractLoop_entries (model : String)
    (loads : List Char → Option (List PyVal)) (ids : Nat → String) :
    ∀ (chunks : List Chunk) (resps : Nat → ExtractResp) (ci n : Nat),
      ∀ e ∈ (extractLoop model loads ids chunks resps ci n).1,
        e.job_id = none ∧ e.service = "openai" := by
  intro chunks
  induction chunks with
  | nil => intro resps ci n e he; simp [extractLoop] at he
  | cons c rest ih =>
    intro resps ci n e he
    have he2 : e ∈ (extract_statements c.text c.pages model (resps ci) loads).1
        ++ (extractLoop model loads ids rest resps (ci + 1)
          (n + (resultsToStatements c ids
            (extract_statements c.text c.pages model (resps ci) loads).2
            n).length)).1 := he
    rcases List.mem_append.mp he2 with h1 | h2
    · exact extract_statements_entries _ _ _ _ _ e h1
    · exact ih resps (ci + 1) _ e h2

/-- The ledger after one full `Pipeline.run` (no stage skipped), starting
from the pre-existing ledger `prior` (pipeline.py lines 152-219):

* parsing appends one `track_llamaparse_call` entry carrying the run's job
  id (llama_parser.py lines 184-195, `estPages` pages);
* extraction appends the entries of `LlamaExtractor.extract`, which never
  forwards any job id to the tracker (llama_extractor.py lines 118-129);
* QA generation appends the entries of `qa_generator.generate(statements,
  source=str(document.path))` — called without `job_id` (pipeline.py line
  193), so the generator's `job_id` parameter stays `None`. -/
def pipelineRunLedger (prior : List APICall) (jobId : String) (estPages : Nat)
    (chunks : List Chunk) (loads : List Char → Option (List PyVal))
    (ids : Nat → String) (resps : Nat → ExtractResp)
    (source extractModel qaModel : String) (bsPred : Nat)
    (qOut aOut : Nat → CallOutcome) : List APICall :=
  let ext := LlamaExtractor_extract extractModel loads ids chunks resps
  let qa := QAGenerator_generate ext.2 source qaModel none bsPred qOut aOut
  (track_llamaparse_call prior estPages (some jobId)).1 ++ ext.1 ++ qa.1

lemma totalCost_append (a b : List APICall) :
    totalCost (a ++ b) = totalCost a + totalCost b := by
  simp [totalCost]

lemma filter_false_of_entries (p : APICall → Bool) (l : List APICall)
    (h : ∀ e ∈ l, p e = false) : l.filter p = [] :=
  List.filter_eq_nil_iff.mpr (by simpa using h)

/-- C8: in a full `Pipeline.run`, every OpenAI cost entry recorded during
statement extraction and during QA generation is appended with
`job_id = None` — `LlamaExtractor` never forwards its job id argument to the
tracker, and `Pipeline.run` calls `qa_generator.generate` without a job id —
so `ProcessingSummary.finalize`, which filters the ledger by the run's job
id, accounts exactly the LlamaParse parsing cost in `total_cost_usd` and no
OpenAI cost at all (given a non-empty job id that no pre-existing entry
carries). -/
theorem c8_finalize_counts_only_llamaparse (prior : List APICall)
    (jobId : String) (estPages : Nat) (chunks : List Chunk)
    (loads : List Char → Option (List PyVal)) (ids : Nat → String)
    (resps : Nat → ExtractResp) (source extractModel qaModel : String)
    (bsPred : Nat) (qOut aOut : Nat → CallOutcome)
    (hj : jobId ≠ "") (hprior : ∀ e ∈ prior, e.job_id ≠ some jobId) :
    (∀ e ∈ (LlamaExtractor_extract extractModel loads ids chunks resps).1,
        e.job_id = none ∧ e.service = "openai")
    ∧ (∀ e ∈ (QAGenerator_generate
          (LlamaExtractor_extract extractModel loads ids chunks resps).2
          source qaModel none bsPred qOut aOut).1,
        e.job_id = none ∧ e.service = "openai")
    ∧ (finalize (pipelineRunLedger prior jobId estPages chunks loads ids resps
          source extractModel qaModel bsPred qOut aOut) jobId).total_cost_usd
        = calculate_llamaparse_cost estPages
    ∧ (finalize (pipelineRunLedger prior jobId estPages chunks loads ids resps
          source extractModel qaModel bsPred qOut aOut) jobId).openai_cost_usd
        = 0 := by
  have hext := extractLoop_entries extractModel loads ids chunks resps 0 0
  have hqa := QAGenerator_generate_entries
    (LlamaExtractor_extract extractModel loads ids chunks resps).2
    source qaModel none bsPred qOut aOut
  have hL : pipelineRunLedger prior jobId estPages chunks loads ids resps
      source extractModel qaModel bsPred qOut aOut
      = prior ++ ((track_llamaparse_call [] estPages (some jobId)).1
        ++ ((LlamaExtractor_extract extractModel loads ids chunks resps).1
          ++ (QAGenerator_generate
            (LlamaExtractor_extract extractModel loads ids chunks resps).2
            source qaModel none bsPred qOut aOut).1)) := by
    simp [pipelineRunLedger, track_llamaparse_call, LlamaExtractor_extract,
      QAGenerator_generate]
  refine ⟨hext, hqa, ?_, ?_⟩
  · have h1 : (finalize (pipelineRunLedger prior jobId estPages chunks loads
        ids resps source extractModel qaModel bsPred qOut aOut)
        jobId).total_cost_usd
        = lookupBucketCost (get_summary (pipelineRunLedger prior jobId
          estPages chunks loads ids resps source extractModel qaModel bsPred
          qOut aOut)).by_job jobId := rfl
    rw [h1, get_summary_by_job_lookup _ jobId hj, hL,
      List.filter_append, List.filter_append, List.filter_append,
      filter_false_of_entries _ prior
        (fun e he => by simp [hprior e he]),
      filter_false_of_entries _
        (LlamaExtractor_extract extractModel loads ids chunks resps).1
        (fun e he => by simp [(hext e he).1]),
      filter_false_of_entries _
        (QAGenerator_generate
          (LlamaExtractor_extract extractModel loads ids chunks resps).2
          source qaModel none bsPred qOut aOut).1
        (fun e he => by simp [(hqa e he).1])]
    simp [track_llamaparse_call, totalCost]
  · have h2 : (finalize (pipelineRunLedger prior jobId estPages chunks loads
        ids resps source extractModel qaModel bsPred qOut aOut)
        jobId).openai_cost_usd
        = totalCost ((pipelineRunLedger prior jobId estPages chunks loads ids
          resps source extractModel qaModel bsPred qOut aOut).filter
            (fun c => c.job_id == some jobId && c.service == "openai")) := rfl
    rw [h2, hL, List.filter_append, List.filter_append, List.filter_append,
      filter_false_of_entries _ prior
        (fun e he => by simp [hprior e he]),
      filter_false_of_entries _
        (LlamaExtractor_extract extractModel loads ids chunks resps).1
        (fun e he => by simp [(hext e he).1]),
      filter_false_of_entries _
        (QAGenerator_generate
          (LlamaExtractor_extract extractModel loads ids chunks resps).2
          source qaModel none bsPred qOut aOut).1
        (fun e he => by simp [(hqa e he).1])]
    simp [track_llamaparse_call, totalCost]

/-- Concrete application of the C8 theorem: a fresh ledger, job id `job1`,
a 3-page parse and a one-chunk run whose extraction call raises — the
finalized total cost is exactly the LlamaParse cost of 3 pages and the
finalized OpenAI cost is 0. -/
theorem c8_finalize_counts_only_llamaparse_witness :
    (finalize (pipelineRunLedger [] "job1" 3 [exChunk] exLoadsFail exIds
        (fun _ => ExtractResp.raise) "doc.pdf" "gpt-3.5-turbo" "gpt-3.5-turbo"
        4 (fun _ => .ok none (some "Q?")) (fun _ => .ok none (some "A.")))
      "job1").total_cost_usd = calculate_llamaparse_cost 3
    ∧ (finalize (pipelineRunLedger [] "job1" 3 [exChunk] exLoadsFail exIds
        (fun _ => ExtractResp.raise) "doc.pdf" "gpt-3.5-turbo" "gpt-3.5-turbo"
        4 (fun _ => .ok none (some "Q?")) (fun _ => .ok none (some "A.")))
      "job1").openai_cost_usd = 0 :=
  (c8_finalize_counts_only_llamaparse [] "job1" 3 [exChunk] exLoadsFail exIds
    (fun _ => ExtractResp.raise) "doc.pdf" "gpt-3.5-turbo" "gpt-3.5-turbo" 4
    (fun _ => .ok none (some "Q?")) (fun _ => .ok none (some "A."))
    (by decide) (by simp)).2.2

end Pdf2qa
